import Mathlib

/-!
Verification of the Source/Dataset resolution core of nextstrain.org.

The embedded code is `auspice/server/sources.js` (the Source class
hierarchy, the Dataset class hierarchy and the exported source registry)
together with the error class declared in `src/exceptions.js`.  JavaScript
strings are embedded as Lean `String`s; the JavaScript string/array
primitives used by the code (`split` with a one-character separator,
`join`, `endsWith`, the anchored `replace` of a fixed suffix) are embedded
at the character-list level so that their behaviour is fully explicit.
Methods that `throw` are embedded as `Except String` values whose error
carries the thrown message; methods that cannot throw are plain functions.
External collaborators (the S3 client, the process-wide listing caches,
the WHATWG URL resolver) are embedded at their interface boundary as an
explicit `Env` parameter or as a small model noted in its doc comment.
-/

namespace Nextstrain

/-! ## Character-level embeddings of the JavaScript string primitives -/

/-- Embeds JavaScript `String.prototype.split` with a one-character
separator, at the character-list level: splitting the empty text yields
one empty piece, and every occurrence of the separator starts a new
piece (JavaScript `"".split("_")` is `[""]`, `"a__b".split("_")` is
`["a","","b"]`). -/
def splitChar (sep : Char) : List Char → List (List Char)
  | [] => [[]]
  | c :: cs =>
    if c = sep then [] :: splitChar sep cs
    else match splitChar sep cs with
      | [] => [[c]]
      | h :: t => (c :: h) :: t

/-- Embeds JavaScript `Array.prototype.join` with a one-character
separator, at the character-list level. -/
def joinChar (sep : Char) : List (List Char) → List Char
  | [] => []
  | [x] => x
  | x :: y :: ys => x ++ sep :: joinChar sep (y :: ys)

/-- JavaScript `s.split(sep)` for a one-character separator `sep`. -/
def jsSplit (sep : Char) (s : String) : List String :=
  (splitChar sep s.data).map String.mk

/-- JavaScript `parts.join(sep)` for a one-character separator `sep`. -/
def jsJoin (sep : Char) (parts : List String) : String :=
  ⟨joinChar sep (parts.map String.data)⟩

/-- JavaScript `s.endsWith(suffix)`. -/
def jsEndsWith (s suffix : String) : Bool :=
  decide (suffix.data <:+ s.data)

/-- Models the WHATWG `new URL(relative, base).toString()` call of
`sources.js` for the only case the code exercises: `relative` is a plain
file name (no slash, scheme, query or fragment) resolved against an
absolute hierarchical base URL ending in a slash, which yields their
concatenation. -/
def resolveURL (relative base : String) : String :=
  base ++ relative

/-! ## External data shapes -/

/-- The caller-supplied user object: in JavaScript it is `undefined` or an
object whose `groups` property is `undefined` or an array of strings.  The
object itself is `some ⟨groups⟩`; an absent `groups` property is `none`. -/
structure User where
  groups : Option (List String)
deriving DecidableEq

/-- One entry of an `availableDatasets`/`availableNarratives` listing:
the object literal `{request: ...}` built in `sources.js`. -/
structure Request where
  request : String
deriving DecidableEq, Repr

/-- The external collaborators of `sources.js`, at their interface
boundary: the process-wide `global.availableDatasets` and
`global.availableNarratives` caches (objects keyed by source name, an
absent key being `none`), the S3 listing (`listObjectsV2` restricted to
the keys of the named bucket, first page), and the S3 URL signer
(`getSignedUrl("getObject", {Bucket, Key})` as a function of bucket and
key). -/
structure Env where
  globalAvailableDatasets : String → Option (List Request)
  globalAvailableNarratives : String → Option (List Request)
  bucketKeys : String → List String
  getSignedUrl : String → String → String

/-! ## The Source hierarchy (sources.js) -/

/-- The classes of the `sources.js` hierarchy that have observable
behaviour: the abstract `Source` base, the four concrete sources
(`LiveSource`, `StagingSource`, `CommunitySource`, `InrbDrcSource`) and
the abstract `PrivateS3Source` base that `InrbDrcSource` extends. -/
inductive SourceKind
  | base
  | live
  | staging
  | community
  | privateS3Base
  | inrbDrc
deriving DecidableEq, Repr

/-- The `name` getter: the `Source` base throws (and `PrivateS3Source`
inherits that); each concrete class returns its constant name. -/
def Source.name : SourceKind → Except String String
  | .live => .ok "live"
  | .staging => .ok "staging"
  | .community => .ok "community"
  | .inrbDrc => .ok "inrb-drc"
  | _ => .error "name() must be implemented by subclasses"

/-- The `baseUrl` getter: only `LiveSource` and `StagingSource` define it;
every other class (the `Source` base included) throws via the base
getter. -/
def Source.baseUrl : SourceKind → Except String String
  | .live => .ok "http://data.nextstrain.org/"
  | .staging => .ok "http://staging.nextstrain.org/"
  | _ => .error "baseUrl() must be implemented by subclasses"

/-- The `bucket` getter exists only on `InrbDrcSource`; reading it on any
other class yields JavaScript `undefined` (there is no getter to throw),
embedded as `none`. -/
def Source.bucket : SourceKind → Option String
  | .inrbDrc => some "nextstrain-inrb"
  | _ => none

/-- `visibleToUser(user)`: the `Source` base returns `true`;
`PrivateS3Source` overrides it to throw; `InrbDrcSource` overrides it
with `!!user && !!user.groups && user.groups.includes("inrb")`. -/
def Source.visibleToUser (k : SourceKind) (user : Option User) : Except String Bool :=
  match k with
  | .privateS3Base =>
      .error "visibleToUser() must be implemented explicitly by subclasses (not inherited from Source)"
  | .inrbDrc =>
      .ok (match user with
        | none => false
        | some u =>
          match u.groups with
          | none => false
          | some gs => gs.contains "inrb")
  | _ => .ok true

/-! ## The Dataset hierarchy (sources.js) -/

/-- The three Dataset classes: the base `Dataset`, `CommunityDataset` and
`PrivateS3Dataset`. -/
inductive DatasetKind
  | base
  | community
  | privateS3
deriving DecidableEq, Repr

/-- A `Dataset` instance: which class it is, the `source` back-reference
and the `pathParts` array stored by the constructor.  The constructor
performs no validation: it only assigns `this.source` and
`this.pathParts`. -/
structure Dataset where
  kind : DatasetKind
  source : SourceKind
  pathParts : List String
deriving DecidableEq, Repr

/-- `dataset(pathParts)`: the `Source` base constructs `new Dataset`;
`CommunitySource` overrides it to construct `new CommunityDataset`;
`PrivateS3Source` (hence `InrbDrcSource`) overrides it to construct
`new PrivateS3Dataset`. -/
def Source.dataset (k : SourceKind) (pathParts : List String) : Dataset :=
  match k with
  | .community => { kind := .community, source := k, pathParts := pathParts }
  | .privateS3Base => { kind := .privateS3, source := k, pathParts := pathParts }
  | .inrbDrc => { kind := .privateS3, source := k, pathParts := pathParts }
  | _ => { kind := .base, source := k, pathParts := pathParts }

/-- The `baseParts` getter: the base `Dataset` returns a copy of
`pathParts` (`slice()`); `CommunityDataset` returns `pathParts.slice(1)`,
dropping the GitHub owner. -/
def Dataset.baseParts (d : Dataset) : List String :=
  match d.kind with
  | .community => d.pathParts.drop 1
  | _ => d.pathParts

/-- `baseNameFor(type)`: `baseParts.join("_")` followed by the template
literal appending an underscore, the type and the `.json` suffix. -/
def Dataset.baseNameFor (d : Dataset) (type : String) : String :=
  jsJoin '_' d.baseParts ++ "_" ++ type ++ ".json"

/-- `baseNameFor` as an explicit state-passing method call: the method
body reads `this.baseParts` and local values only and assigns nothing, so
the post-state it returns is the receiver unchanged. -/
def Dataset.baseNameForM (d : Dataset) (type : String) : String × Dataset :=
  let baseName := jsJoin '_' d.baseParts
  (baseName ++ "_" ++ type ++ ".json", d)

/-- `urlFor(type)`: the base `Dataset` resolves the base name against
`this.source.baseUrl` (propagating the throw when that getter throws);
`CommunityDataset` resolves it against the raw-githubusercontent base
built from `pathParts[0]` and `pathParts[1]` (an out-of-range index is
JavaScript `undefined`, rendered as the text "undefined" by the template
literal); `PrivateS3Dataset` asks the S3 client for a signed URL for the
object key `baseNameFor(type)` in `this.source.bucket` (an `undefined`
bucket makes the S3 client reject the call). -/
def Dataset.urlFor (env : Env) (d : Dataset) (type : String) : Except String String :=
  match d.kind with
  | .base =>
      (Source.baseUrl d.source).map (fun base => resolveURL (d.baseNameFor type) base)
  | .community =>
      let repoBaseUrl :=
        "https://raw.githubusercontent.com/" ++ d.pathParts.getD 0 "undefined"
          ++ "/" ++ d.pathParts.getD 1 "undefined" ++ "/master/auspice/"
      .ok (resolveURL (d.baseNameFor type) repoBaseUrl)
  | .privateS3 =>
      match Source.bucket d.source with
      | some b => .ok (env.getSignedUrl b (d.baseNameFor type))
      | none => .error "Missing required key Bucket in params"

/-! ## Listings (sources.js) -/

/-- The anchored `replace(/_tree[.]json$/, "")`: when the file name ends
with `_tree.json` the match is that ten-character suffix and it is
removed; otherwise the name is unchanged. -/
def stripTreeSuffix (file : String) : String :=
  if jsEndsWith file "_tree.json" then ⟨file.data.take (file.data.length - 10)⟩
  else file

/-- The per-key recovery step of `PrivateS3Source.availableDatasets`:
strip the `_tree.json` suffix, `split("_")`, `join("/")`. -/
def recoverPath (file : String) : String :=
  jsJoin '/' (jsSplit '_' (stripTreeSuffix file))

/-- The pure part of `PrivateS3Source.availableDatasets`, applied to the
bucket keys the S3 listing returned: keep the keys ending in
`_tree.json`, recover each path, and build
`{request: [name, path].join("/")}`. -/
def privateS3AvailableDatasets (name : String) (keys : List String) : List Request :=
  ((keys.filter (fun file => jsEndsWith file "_tree.json")).map recoverPath).map
    (fun path => { request := jsJoin '/' [name, path] })

/-- `availableDatasets()`: the `Source` base returns `[]` (inherited by
`CommunitySource`); `LiveSource` and `StagingSource` read the process
cache under their name with `|| []`; `InrbDrcSource` (through
`PrivateS3Source`) lists its bucket and applies the recovery pipeline;
on the abstract `PrivateS3Source` itself `this.bucket` is `undefined`
and the S3 client rejects the listing call. -/
def Source.availableDatasets (env : Env) : SourceKind → Except String (List Request)
  | .live => .ok ((env.globalAvailableDatasets "live").getD [])
  | .staging => .ok ((env.globalAvailableDatasets "staging").getD [])
  | .inrbDrc => .ok (privateS3AvailableDatasets "inrb-drc" (env.bucketKeys "nextstrain-inrb"))
  | .privateS3Base => .error "Missing required key Bucket in params"
  | _ => .ok []

/-- `availableNarratives()`: only `LiveSource` and `StagingSource`
override it; every other class (the private-store classes included)
inherits the `Source` default `[]`. -/
def Source.availableNarratives (env : Env) : SourceKind → Except String (List Request)
  | .live => .ok ((env.globalAvailableNarratives "live").getD [])
  | .staging => .ok ((env.globalAvailableNarratives "staging").getD [])
  | _ => .ok []

/-! ## The registry (module.exports) and exceptions.js -/

/-- The exported registry: `new Map` over the four name/instance pairs,
in source order. -/
def sources : List (String × SourceKind) :=
  [("live", .live), ("staging", .staging), ("community", .community),
   ("inrb-drc", .inrbDrc)]

/-- `Map.prototype.get` on the exported registry: the value under the
first matching key, `undefined` (here `none`) when the name is absent.
The lookup itself never throws. -/
def sourcesGet (name : String) : Option SourceKind :=
  (sources.find? (fun p => p.1 == name)).map Prod.snd

/-- The default message of `NoResourcePathError` (src/exceptions.js),
the error documented as thrown when a Source is asked to create a
Dataset without a resource path.  Nothing in `sources.js` constructs or
throws it. -/
def noResourcePathErrorDefaultMessage : String :=
  "No resource path provided"

end Nextstrain

namespace Nextstrain

/-! ## Helper lemmas on the string primitives -/

theorem splitChar_no_sep (sep : Char) (x : List Char) (h : sep ∉ x) :
    splitChar sep x = [x] := by
  induction x with
  | nil => rfl
  | cons c cs ih =>
    simp only [List.mem_cons, not_or] at h
    simp only [splitChar]
    rw [if_neg (fun hc => h.1 hc.symm), ih h.2]

theorem splitChar_append_sep (sep : Char) (x r : List Char) (h : sep ∉ x) :
    splitChar sep (x ++ sep :: r) = x :: splitChar sep r := by
  induction x with
  | nil => simp [splitChar]
  | cons c cs ih =>
    simp only [List.mem_cons, not_or] at h
    simp only [List.cons_append, splitChar, List.append_eq]
    rw [if_neg (fun hc => h.1 hc.symm), ih h.2]

theorem splitChar_joinChar (sep : Char) (L : List (List Char)) (hne : L ≠ [])
    (h : ∀ l ∈ L, sep ∉ l) : splitChar sep (joinChar sep L) = L := by
  induction L with
  | nil => exact absurd rfl hne
  | cons x xs ih =>
    cases xs with
    | nil => exact splitChar_no_sep sep x (h x (by simp))
    | cons y ys =>
      simp only [joinChar]
      rw [splitChar_append_sep sep x _ (h x (by simp)), ih (by simp) ?_]
      intro l hl
      exact h l (List.mem_cons_of_mem _ hl)

theorem jsSplit_jsJoin (sep : Char) (pp : List String) (hne : pp ≠ [])
    (h : ∀ s ∈ pp, sep ∉ s.data) : jsSplit sep (jsJoin sep pp) = pp := by
  unfold jsSplit jsJoin
  rw [splitChar_joinChar sep (pp.map String.data)
        (by simpa using hne)
        (by intro l hl; obtain ⟨s, hs, rfl⟩ := List.mem_map.mp hl; exact h s hs)]
  rw [List.map_map]
  exact List.map_id pp

theorem stripTreeSuffix_append (s : String) :
    stripTreeSuffix (s ++ "_tree.json") = s := by
  have hend : jsEndsWith (s ++ "_tree.json") "_tree.json" = true := by
    unfold jsEndsWith
    rw [decide_eq_true_eq, String.data_append]
    exact List.suffix_append s.data _
  unfold stripTreeSuffix
  rw [if_pos hend, String.data_append]
  have hlen : (s.data ++ ("_tree.json" : String).data).length - 10 = s.data.length := by
    rw [List.length_append]
    rfl
  rw [hlen, List.take_left]

/-! ## The claims -/

/-- C1: for the community variant, with path parts `[owner, repo, ...rest]`,
`baseNameFor(type)` excludes the owner from the file name — it is the join
of `[repo, ...rest]` with underscores followed by the underscore, the type
and `.json` — while `urlFor(type)` resolves that base name against
`https://raw.githubusercontent.com/<owner>/<repo>/master/auspice/`, so the
owner appears in the URL path but not in the base name; in particular
path parts `["owner","repo","a","b"]` give base name
`repo_a_b_<type>.json` and the URL
`https://raw.githubusercontent.com/owner/repo/master/auspice/` followed by
that base name. -/
theorem community_basename_excludes_owner (owner repo : String) (rest : List String)
    (type : String) (env : Env) :
    (Source.dataset .community (owner :: repo :: rest)).baseNameFor type
      = jsJoin '_' (repo :: rest) ++ "_" ++ type ++ ".json"
    ∧ (Source.dataset .community (owner :: repo :: rest)).urlFor env type
      = .ok ("https://raw.githubusercontent.com/" ++ owner ++ "/" ++ repo
          ++ "/master/auspice/"
          ++ ((Source.dataset .community (owner :: repo :: rest)).baseNameFor type))
    ∧ (Source.dataset .community ["owner", "repo", "a", "b"]).baseNameFor type
      = "repo_a_b_" ++ type ++ ".json"
    ∧ (Source.dataset .community ["owner", "repo", "a", "b"]).urlFor env "tree"
      = .ok "https://raw.githubusercontent.com/owner/repo/master/auspice/repo_a_b_tree.json" := by
  refine ⟨rfl, rfl, ?_, rfl⟩
  show jsJoin '_' ["repo", "a", "b"] ++ "_" ++ type ++ ".json" = "repo_a_b_" ++ type ++ ".json"
  rfl

/-- Witness for C1 at owner "o", repo "r", rest ["x"], type "meta". -/
theorem community_basename_excludes_owner_witness :
    (Source.dataset .community ("o" :: "r" :: ["x"])).baseNameFor "meta"
      = jsJoin '_' ("r" :: ["x"]) ++ "_" ++ "meta" ++ ".json" :=
  (community_basename_excludes_owner "o" "r" ["x"] "meta"
    ⟨fun _ => none, fun _ => none, fun _ => [], fun _ _ => ""⟩).1

/-- C2: on the private tenant source `inrb-drc`, `visibleToUser(user)`
never throws, is false when the user is absent, when the user has no
`groups` property and when the groups list is empty, is true for groups
`["inrb"]`, and in general is true exactly when a groups list is present
and contains the tenant's group name `"inrb"`. -/
theorem inrb_drc_visible_to_user :
    (∀ user : Option User, ∃ b : Bool, Source.visibleToUser .inrbDrc user = .ok b)
    ∧ Source.visibleToUser .inrbDrc none = .ok false
    ∧ Source.visibleToUser .inrbDrc (some ⟨none⟩) = .ok false
    ∧ Source.visibleToUser .inrbDrc (some ⟨some []⟩) = .ok false
    ∧ Source.visibleToUser .inrbDrc (some ⟨some ["inrb"]⟩) = .ok true
    ∧ (∀ user : Option User, Source.visibleToUser .inrbDrc user = .ok true
        ↔ ∃ gs : List String, user = some ⟨some gs⟩ ∧ "inrb" ∈ gs) := by
  refine ⟨?_, rfl, rfl, rfl, rfl, ?_⟩
  · intro user
    exact ⟨_, rfl⟩
  · intro user
    constructor
    · intro h
      match user with
      | none => exact absurd h (by simp [Source.visibleToUser])
      | some ⟨none⟩ => exact absurd h (by simp [Source.visibleToUser])
      | some ⟨some gs⟩ =>
        refine ⟨gs, rfl, ?_⟩
        have : gs.contains "inrb" = true := by
          simpa [Source.visibleToUser] using h
        simpa using this
    · rintro ⟨gs, rfl, hmem⟩
      simp [Source.visibleToUser]
      simpa using hmem

/-- C3: the private-store listing keeps exactly the bucket keys ending in
`_tree.json` (one listing entry per such key), recovers each path by
stripping that suffix, splitting on underscore and rejoining with `/`,
and wraps it as `{request: "<sourceName>/<path>"}`; for bucket keys
`["a_b_tree.json","a_b_meta.json","c_tree.json"]` the `inrb-drc` source
lists exactly `{request: "inrb-drc/a/b"}` and `{request: "inrb-drc/c"}`
(the meta-only key produces no entry). -/
theorem inrb_drc_available_datasets (env : Env)
    (h : env.bucketKeys "nextstrain-inrb"
      = ["a_b_tree.json", "a_b_meta.json", "c_tree.json"]) :
    Source.availableDatasets env .inrbDrc
      = .ok [{request := "inrb-drc/a/b"}, {request := "inrb-drc/c"}]
    ∧ (∀ name : String, ∀ keys : List String,
        (privateS3AvailableDatasets name keys).length
          = (keys.filter (fun file => jsEndsWith file "_tree.json")).length) := by
  constructor
  · simp only [Source.availableDatasets, h]
    rfl
  · intro name keys
    simp [privateS3AvailableDatasets]

/-- Witness for C3 at a concrete environment holding exactly the three
bucket keys of the claim. -/
theorem inrb_drc_available_datasets_witness :
    Source.availableDatasets
      ⟨fun _ => none, fun _ => none,
       fun _ => ["a_b_tree.json", "a_b_meta.json", "c_tree.json"], fun _ _ => ""⟩
      .inrbDrc
      = .ok [{request := "inrb-drc/a/b"}, {request := "inrb-drc/c"}] :=
  (inrb_drc_available_datasets _ rfl).1

/-- C4: the listing recovery rule (strip `_tree.json`, split on
underscore, rejoin with `/`) inverts the base-name rule of the default
Dataset: for every non-empty path-parts sequence whose segments contain
no underscore, recovering from `baseNameFor("tree")` yields the original
parts joined with `/`. -/
theorem listing_recovery_inverts_basename (pp : List String) (hne : pp ≠ [])
    (h : ∀ s ∈ pp, '_' ∉ s.data) :
    recoverPath ((Source.dataset .base pp).baseNameFor "tree") = jsJoin '/' pp := by
  have hbase : (Source.dataset .base pp).baseNameFor "tree"
      = jsJoin '_' pp ++ "_tree.json" := by
    show jsJoin '_' pp ++ "_" ++ "tree" ++ ".json" = jsJoin '_' pp ++ "_tree.json"
    rw [String.append_assoc, String.append_assoc]
    rfl
  rw [hbase]
  unfold recoverPath
  rw [stripTreeSuffix_append, jsSplit_jsJoin '_' pp hne h]

/-- Witness for C4 at path parts `["a", "b"]`. -/
theorem listing_recovery_inverts_basename_witness :
    recoverPath ((Source.dataset .base ["a", "b"]).baseNameFor "tree")
      = jsJoin '/' ["a", "b"] :=
  listing_recovery_inverts_basename ["a", "b"] (by decide) (by decide)

/-- C5 (code behaviour at the failing input): the Dataset constructor
performs no validation, so `dataset([])` on every Source produces a
Dataset holding the empty path-parts sequence instead of throwing the
`NoResourcePathError` that `src/exceptions.js` documents for exactly this
situation; that error's default message exists in the code base but the
error is never constructed or thrown by `sources.js`. -/
theorem dataset_accepts_empty_path_parts (k : SourceKind) :
    (Source.dataset k []).pathParts = []
    ∧ noResourcePathErrorDefaultMessage = "No resource path provided" := by
  cases k <;> exact ⟨rfl, rfl⟩

/-- C6: calling an unimplemented required capability halts the call path:
reading `baseUrl` on the abstract Source base throws, and
`visibleToUser` on the abstract private-store base throws — it never
returns any boolean, so it cannot silently inherit the permissive public
default. -/
theorem abstract_capabilities_throw :
    Source.baseUrl .base = .error "baseUrl() must be implemented by subclasses"
    ∧ (∀ user : Option User, Source.visibleToUser .privateS3Base user
        = .error "visibleToUser() must be implemented explicitly by subclasses (not inherited from Source)")
    ∧ (∀ user : Option User, ∀ b : Bool,
        Source.visibleToUser .privateS3Base user ≠ .ok b) := by
  refine ⟨rfl, fun user => rfl, fun user b h => ?_⟩
  simp [Source.visibleToUser] at h

/-- C7: registry lookup is total — it yields the registered Source for
each of the four registered names and an explicit `none` (not a thrown
fault) for every other name. -/
theorem registry_lookup :
    sourcesGet "live" = some .live
    ∧ sourcesGet "staging" = some .staging
    ∧ sourcesGet "community" = some .community
    ∧ sourcesGet "inrb-drc" = some .inrbDrc
    ∧ (∀ name : String,
        name ∉ ["live", "staging", "community", "inrb-drc"] → sourcesGet name = none) := by
  refine ⟨rfl, rfl, rfl, rfl, ?_⟩
  intro name h
  simp only [List.mem_cons, not_or, List.not_mem_nil, not_false_iff, and_true] at h
  obtain ⟨h1, h2, h3, h4⟩ := h
  simp only [sourcesGet, sources, List.find?]
  rw [beq_eq_false_iff_ne.mpr (fun e => h1 e.symm)]
  rw [beq_eq_false_iff_ne.mpr (fun e => h2 e.symm)]
  rw [beq_eq_false_iff_ne.mpr (fun e => h3 e.symm)]
  rw [beq_eq_false_iff_ne.mpr (fun e => h4 e.symm)]
  rfl

/-- C8: the Source defaults — `visibleToUser` is true for every user on
every variant that does not override it (the base and the three public
sources), `availableDatasets` is empty on the variants that do not
override it (the base and the community source), and
`availableNarratives` is empty on the variants that do not override it
(the base, the community source and both private-store classes). -/
theorem default_capabilities :
    (∀ user : Option User,
        Source.visibleToUser .base user = .ok true
        ∧ Source.visibleToUser .live user = .ok true
        ∧ Source.visibleToUser .staging user = .ok true
        ∧ Source.visibleToUser .community user = .ok true)
    ∧ (∀ env : Env,
        Source.availableDatasets env .base = .ok []
        ∧ Source.availableDatasets env .community = .ok [])
    ∧ (∀ env : Env,
        Source.availableNarratives env .base = .ok []
        ∧ Source.availableNarratives env .community = .ok []
        ∧ Source.availableNarratives env .privateS3Base = .ok []
        ∧ Source.availableNarratives env .inrbDrc = .ok []) :=
  ⟨fun _ => ⟨rfl, rfl, rfl, rfl⟩, fun _ => ⟨rfl, rfl⟩, fun _ => ⟨rfl, rfl, rfl, rfl⟩⟩

/-- C9: `baseNameFor` is a pure function of the Dataset's state — the
method call returns its receiver unchanged, a repeated call on the
returned state yields the same string, and the path parts after the call
are the path parts before it. -/
theorem basename_pure (d : Dataset) (type : String) :
    (d.baseNameForM type).1 = d.baseNameFor type
    ∧ (d.baseNameForM type).2 = d
    ∧ ((d.baseNameForM type).2.baseNameForM type).1 = (d.baseNameForM type).1
    ∧ (d.baseNameForM type).2.pathParts = d.pathParts :=
  ⟨rfl, rfl, rfl, rfl⟩

/-- C10: the registry holds exactly the four entries `live`, `staging`,
`community` and `inrb-drc`, in that order and without duplicates, and
each entry's key equals the registered Source's own `name`. -/
theorem registry_names_consistent :
    sources.map Prod.fst = ["live", "staging", "community", "inrb-drc"]
    ∧ (∀ p ∈ sources, Source.name p.2 = .ok p.1)
    ∧ (sources.map Prod.fst).Nodup := by
  refine ⟨rfl, ?_, by decide⟩
  intro p hp
  fin_cases hp <;> rfl

end Nextstrain
